import Mathlib

/-!
Shallow embedding of the real-time telemetry aggregator
(`aggregator/internal/buffer`, `aggregator/internal/ingest`,
`aggregator/internal/ws`, `aggregator/internal/auth`), together with
proofs settling the specification claims about it.

Modelling conventions:
* IEEE-754 `float64` values are modelled as rationals (`F64 := Rat`):
  no claim depends on floating-point rounding, and every concrete value
  used below is exactly representable as a double.
* Go maps are modelled as association lists with lookup/assign helpers
  (`findKey`, `mapAssign`, `setKey`).  Go map iteration order is
  unspecified and the specification declares entry order unobservable,
  so only lookup results are stated.
* Mutable heap objects (rings shared between a registry map and callers)
  are modelled by explicit state passing: an operation that mutates a
  ring through a registry handle is modelled as a registry-to-registry
  function updating the binding of that key.
* The `uint64` monotone write index of a ring is modelled as an
  unbounded `Nat`: its overflow would need 2^64 pushes and no claim
  reaches it.  The `int -> uint64` and `uint64 -> int64` conversions,
  where wrapping is actually exercised (negative `SnapshotLast`
  arguments), are modelled with explicit `% 2^64`.
-/

namespace Aggregator

/-- Float64 values; see the modelling conventions in the file header. -/
abbrev F64 := Rat

def UINT64_MOD : Nat := 2 ^ 64

/-- Go conversion `uint64(n)` of a (64-bit) `int` value: wraps modulo 2^64. -/
def uint64ofInt (n : Int) : Nat := (n % (UINT64_MOD : Int)).toNat

/-- Go conversion `int64(u)` of a `uint64` value. -/
def int64ofUInt64 (u : Nat) : Int :=
  if u % UINT64_MOD < 2 ^ 63 then ((u % UINT64_MOD : Nat) : Int)
  else ((u % UINT64_MOD : Nat) : Int) - (UINT64_MOD : Int)

/-- Go conversion `float64(c)` of a `uint64` counter value (exact below
2^53; no claim involves larger counters, so rounding is not modelled). -/
def float64ofUInt64 (n : Nat) : F64 := (n : F64)

/-! ## Association-list model of Go maps -/

/-- Go map lookup `v, ok := m[k]` (as an `Option`). -/
def findKey {κ α : Type} [DecidableEq κ] : List (κ × α) → κ → Option α
  | [], _ => none
  | (k, v) :: rest, key => if k = key then some v else findKey rest key

/-- Update the binding of a key that is already present (Go: mutating the
object a map value points at, or overwriting the entry). -/
def setKey {κ α : Type} [DecidableEq κ] (l : List (κ × α)) (key : κ) (v : α) :
    List (κ × α) :=
  l.map (fun p => if p.1 = key then (key, v) else p)

/-- Go map assignment `m[k] = v`: replace the binding if present,
otherwise add it. -/
def mapAssign {κ α : Type} [DecidableEq κ] (l : List (κ × α)) (key : κ) (v : α) :
    List (κ × α) :=
  if (findKey l key).isSome then setKey l key v else l ++ [(key, v)]

/-! ## buffer.Ring (`internal/buffer/ring.go`) -/

/-- `buffer.Sample`: one scalar metric sample. -/
structure Sample where
  ts : Int
  val : F64
deriving DecidableEq, Repr, Inhabited

/-- `buffer.Ring`: fixed-capacity circular buffer of samples.  `data` is
the slot array (length `size`), `idx` the monotone write counter. -/
structure Ring where
  data : List Sample
  idx : Nat
  size : Nat
deriving DecidableEq, Repr

/-- `buffer.NewRing`. -/
def NewRing (size : Nat) : Ring :=
  { data := List.replicate size default, idx := 0, size := size }

/-- `Ring.Push`: `i := r.idx.Add(1) - 1; r.data[i % r.size] = s`.
The reserved slot index `i` is the pre-increment counter value.
(Go panics on `size == 0`; claims about `Push` assume a positive
capacity.) -/
def Ring.Push (r : Ring) (s : Sample) : Ring :=
  { r with data := r.data.set (r.idx % r.size) s, idx := r.idx + 1 }

/-- `Ring.SnapshotLast(n int)`: the conversion `uint64(n)` wraps modulo
2^64, then the count is clamped to `size` and to the current index, and
slots `[currentIdx - count, currentIdx)` are copied oldest first. -/
def Ring.SnapshotLast (r : Ring) (n : Int) : List Sample :=
  let currentIdx := r.idx
  let count1 := uint64ofInt n
  let count2 := if count1 > r.size then r.size else count1
  let count := if count2 > currentIdx then currentIdx else count2
  let start := currentIdx - count
  (List.range count).map (fun j => r.data.getD ((start + j) % r.size) default)

/-- `Ring.Latest`: most recent sample with a presence flag
(`(Sample{}, false)` is modelled as `none`). -/
def Ring.Latest (r : Ring) : Option Sample :=
  if r.idx = 0 then none
  else some (r.data.getD ((r.idx - 1) % r.size) default)

/-- `Ring.Count`: total number of samples ever written. -/
def Ring.Count (r : Ring) : Nat := r.idx

/-- `Ring.Len`: number of currently valid samples. -/
def Ring.Len (r : Ring) : Nat :=
  if r.idx > r.size then r.size else r.idx

/-- A sequence of consecutive pushes. -/
def Ring.pushAll (r : Ring) (l : List Sample) : Ring :=
  l.foldl Ring.Push r

/-! ## buffer registry (`internal/buffer/registry.go`) -/

/-- `buffer.DefaultRingSize` (10 s at 100 Hz). -/
def DefaultRingSize : Nat := 1000

/-- `buffer.HistogramRingSize`. -/
def HistogramRingSize : Nat := 500

/-- `buffer.MetricKey`. -/
structure MetricKey where
  service : String
  name : String
deriving DecidableEq, Repr

/-- `MetricKey.String()`: the canonical `"<service>/<name>"` form. -/
def MetricKey.keyString (k : MetricKey) : String :=
  k.service ++ "/" ++ k.name

/-- `buffer.HistogramData`. -/
structure HistogramData where
  ts : Int
  bounds : List F64
  counts : List Nat
deriving DecidableEq, Repr, Inhabited

/-- `buffer.HistogramRing` (mutex-guarded in Go; the lock disappears in the
sequential model). -/
structure HistogramRing where
  data : List HistogramData
  idx : Nat
  size : Nat
deriving DecidableEq, Repr

/-- `buffer.NewHistogramRing`. -/
def NewHistogramRing (size : Nat) : HistogramRing :=
  { data := List.replicate size default, idx := 0, size := size }

/-- `HistogramRing.Push`: writes at `idx % size`, then increments `idx`. -/
def HistogramRing.Push (r : HistogramRing) (h : HistogramData) : HistogramRing :=
  { r with data := r.data.set (r.idx % r.size) h, idx := r.idx + 1 }

/-- `HistogramRing.Latest`. -/
def HistogramRing.Latest (r : HistogramRing) : Option HistogramData :=
  if r.idx = 0 then none
  else some (r.data.getD ((r.idx - 1) % r.size) default)

/-- `buffer.Registry`: three per-variant maps. -/
structure Registry where
  gauges : List (MetricKey × Ring)
  counters : List (MetricKey × Ring)
  histograms : List (MetricKey × HistogramRing)
deriving DecidableEq, Repr

/-- `buffer.NewRegistry`. -/
def NewRegistry : Registry :=
  { gauges := [], counters := [], histograms := [] }

/-- `Registry.GetRing`: get-or-create the gauge ring for `(service, name)`.
Returns the (possibly grown) registry together with the ring the caller
receives. -/
def Registry.GetRing (r : Registry) (service name : String) : Registry × Ring :=
  let key : MetricKey := { service := service, name := name }
  match findKey r.gauges key with
  | some ring => (r, ring)
  | none =>
    let ring := NewRing DefaultRingSize
    ({ r with gauges := mapAssign r.gauges key ring }, ring)

/-- `Registry.GetCounterRing`. -/
def Registry.GetCounterRing (r : Registry) (service name : String) :
    Registry × Ring :=
  let key : MetricKey := { service := service, name := name }
  match findKey r.counters key with
  | some ring => (r, ring)
  | none =>
    let ring := NewRing DefaultRingSize
    ({ r with counters := mapAssign r.counters key ring }, ring)

/-- `Registry.GetHistogramRing`. -/
def Registry.GetHistogramRing (r : Registry) (service name : String) :
    Registry × HistogramRing :=
  let key : MetricKey := { service := service, name := name }
  match findKey r.histograms key with
  | some ring => (r, ring)
  | none =>
    let ring := NewHistogramRing HistogramRingSize
    ({ r with histograms := mapAssign r.histograms key ring }, ring)

/-- `buffer.LatestSnapshot` (the struct). -/
structure LatestSnapshot where
  gauges : List (MetricKey × Sample)
  counters : List (MetricKey × Sample)
  histograms : List (MetricKey × HistogramData)
deriving DecidableEq, Repr

/-- `Registry.LatestSnapshot()`: the most recent value of every metric
whose ring is non-empty. -/
def Registry.LatestSnapshot (r : Registry) : LatestSnapshot :=
  { gauges := r.gauges.filterMap (fun p => p.2.Latest.map (fun s => (p.1, s))),
    counters := r.counters.filterMap (fun p => p.2.Latest.map (fun s => (p.1, s))),
    histograms := r.histograms.filterMap (fun p => p.2.Latest.map (fun h => (p.1, h))) }

/-! ## Ingest wire types (`internal/ingest/grpc.go`) -/

/-- The `oneof` value of a `MetricSample`. -/
inductive MetricValue where
  | gauge (v : F64)
  | counter (v : Nat)
  | histogram (bounds : List F64) (counts : List Nat)
deriving DecidableEq, Repr

/-- `ingest.MetricSample` (`timestamp_ns` is `uint64` on the wire). -/
structure MetricSample where
  timestampNs : Nat
  value : MetricValue
deriving DecidableEq, Repr

/-- `ingest.Metric`. -/
structure Metric where
  name : String
  labels : List (String × String)
  samples : List MetricSample
deriving DecidableEq, Repr

/-- `ingest.TelemetryBatch` (`instance` is a Lean keyword, hence
`instanceId`). -/
structure TelemetryBatch where
  service : String
  instanceId : String
  metrics : List Metric
deriving DecidableEq, Repr

/-- `ingest.Ack`. -/
structure Ack where
  ok : Bool
deriving DecidableEq, Repr

/-! ## Ingest router (`internal/ingest/server.go`) -/

/-- One iteration of the sample loop of `Server.processMetric`: route the
sample by its variant tag, get-or-create the ring, push.  Mutating the
shared ring is modelled by writing the pushed ring back to the key's
binding. -/
def processSample (reg : Registry) (service name : String)
    (sample : MetricSample) : Registry :=
  let ts := int64ofUInt64 sample.timestampNs
  let key : MetricKey := { service := service, name := name }
  match sample.value with
  | .gauge v =>
    let res := reg.GetRing service name
    let reg1 := res.1
    let ring := res.2
    { reg1 with gauges := setKey reg1.gauges key (ring.Push { ts := ts, val := v }) }
  | .counter c =>
    let res := reg.GetCounterRing service name
    let reg1 := res.1
    let ring := res.2
    { reg1 with counters := setKey reg1.counters key (ring.Push { ts := ts, val := float64ofUInt64 c }) }
  | .histogram bounds counts =>
    let res := reg.GetHistogramRing service name
    let reg1 := res.1
    let ring := res.2
    { reg1 with histograms := setKey reg1.histograms key (ring.Push { ts := ts, bounds := bounds, counts := counts }) }

/-- `Server.processMetric`: push every sample of the metric. -/
def processMetric (reg : Registry) (service instanceId : String)
    (metric : Metric) : Registry :=
  let _ := instanceId
  metric.samples.foldl (fun r s => processSample r service metric.name s) reg

/-- The per-batch body of `Server.StreamTelemetry`'s receive loop. -/
def processBatch (reg : Registry) (b : TelemetryBatch) : Registry :=
  b.metrics.foldl (fun r m => processMetric r b.service b.instanceId m) reg

/-! ## WebSocket hub (`internal/ws/hub.go`) -/

/-- `ws.Subscription`: one filter entry. -/
structure Subscription where
  service : String
  metric : String
deriving DecidableEq, Repr

/-- The content of one outbound snapshot message (the JSON object built
by `buildClientMessage`; `json.Marshal` serialization is kept abstract,
the maps below are the marshalled fields). -/
structure ClientMessage where
  timestamp : Int
  gauges : List (String × Sample)
  counters : List (String × Sample)
  histograms : List (String × HistogramData)
deriving DecidableEq, Repr

/-- `ws.Client`: the subscription filter and the bounded outbound
mailbox (`send` channel).  `sendCap` is the channel capacity, 256 at
`HandleWebSocket`. -/
structure Client where
  subs : List Subscription
  send : List ClientMessage
  sendCap : Nat
deriving DecidableEq, Repr

/-- `ws.Hub`: the live client set and the ingest-hint channel
(`updates`, capacity 1000). -/
structure Hub where
  clients : List Client
  updates : List String
deriving DecidableEq, Repr

/-- Capacity of the `updates` channel. -/
def updatesCap : Nat := 1000

/-- The mailbox capacity used by `HandleWebSocket` for new clients. -/
def handleWebSocketSendCap : Nat := 256

/-- `Hub.NotifyUpdate`: non-blocking send on the `updates` channel. -/
def Hub.NotifyUpdate (h : Hub) (service : String) : Hub :=
  if h.updates.length < updatesCap then { h with updates := h.updates ++ [service] }
  else h

/-- The non-blocking `select { case client.send <- msg: default: }` used
by the broadcast path: enqueue if the mailbox has room, otherwise drop
the message and leave the client unchanged. -/
def Client.trySend (c : Client) (m : ClientMessage) : Client :=
  if c.send.length < c.sendCap then { c with send := c.send ++ [m] } else c

/-- The `MetricKey` built from one subscription entry
(`key := buffer.MetricKey{Service: sub.Service, Name: sub.Metric}`). -/
def subKey (sub : Subscription) : MetricKey :=
  { service := sub.service, name := sub.metric }

/-- One iteration of `buildClientMessage`'s subscription loop for one of
the three result maps: look the subscription's key up in the snapshot
map and, on a hit, assign the entry under the canonical string key. -/
def filteredStep {α : Type} [DecidableEq α] (snap : List (MetricKey × α))
    (acc : List (String × α)) (sub : Subscription) : List (String × α) :=
  match findKey snap (subKey sub) with
  | some v => mapAssign acc (subKey sub).keyString v
  | none => acc

/-- Build one string-keyed result map of `buildClientMessage`'s filtered
branch.  (The Go loop updates the three result maps in one pass; they
are independent, so the model folds once per map.) -/
def filteredMap {α : Type} [DecidableEq α] (snap : List (MetricKey × α))
    (subs : List Subscription) : List (String × α) :=
  subs.foldl (filteredStep snap) []

/-- `convertGauges` / `convertCounters` / `convertHistograms`: re-key a
snapshot map by the canonical string form. -/
def convertByKeyString {α : Type} [DecidableEq α] (l : List (MetricKey × α)) :
    List (String × α) :=
  l.foldl (fun acc p => mapAssign acc p.1.keyString p.2) []

/-- `Hub.buildClientMessage` (the `time.Now().UnixNano()` timestamp is
passed in as `now`; the Go function never returns nil). -/
def Hub.buildClientMessage (client : Client) (snapshot : LatestSnapshot)
    (now : Int) : ClientMessage :=
  if client.subs = [] then
    { timestamp := now,
      gauges := convertByKeyString snapshot.gauges,
      counters := convertByKeyString snapshot.counters,
      histograms := convertByKeyString snapshot.histograms }
  else
    { timestamp := now,
      gauges := filteredMap snapshot.gauges client.subs,
      counters := filteredMap snapshot.counters client.subs,
      histograms := filteredMap snapshot.histograms client.subs }

/-- `Hub.broadcastSnapshot`: take one registry snapshot, build a message
per client and offer it non-blockingly to each mailbox.  The registry the
Go hub holds a pointer to is passed explicitly. -/
def Hub.broadcastSnapshot (h : Hub) (reg : Registry) (now : Int) : Hub :=
  let snapshot := reg.LatestSnapshot
  { h with clients :=
      h.clients.map (fun c => c.trySend (Hub.buildClientMessage c snapshot now)) }

/-! ## Ingest stream loop (`Server.StreamTelemetry`) -/

/-- How the receive loop ends: a clean `io.EOF` or a transport error. -/
inductive StreamEnd where
  | eof
  | failure (e : String)
deriving DecidableEq, Repr

/-- The observable outcome of `StreamTelemetry`. -/
structure StreamResult where
  registry : Registry
  hub : Hub
  acks : List Ack
  err : Option String
deriving DecidableEq, Repr

/-- `Server.StreamTelemetry`: the stream is the list of successfully
received batches followed by its terminal event.  Each batch is processed
into the registry and the hub is notified; on `io.EOF` the loop replies
`SendAndClose(Ack{Ok: true})`, on any other receive error it returns the
error without sending an acknowledgment. -/
def StreamTelemetry (reg : Registry) (hub : Hub)
    (batches : List TelemetryBatch) (term : StreamEnd) : StreamResult :=
  match batches with
  | [] =>
    match term with
    | .eof => { registry := reg, hub := hub, acks := [{ ok := true }], err := none }
    | .failure e => { registry := reg, hub := hub, acks := [], err := some e }
  | b :: rest =>
    StreamTelemetry (processBatch reg b) (hub.NotifyUpdate b.service) rest term

/-! ## Authentication (`internal/auth/auth.go`) -/

/-- `auth.Authenticator` (`apiKeys` is a set-as-map in Go). -/
structure Authenticator where
  apiKeys : List String
  enabled : Bool
deriving DecidableEq, Repr

/-- `Authenticator.ValidateAPIKey`. -/
def Authenticator.ValidateAPIKey (a : Authenticator) (key : String) : Bool :=
  if !a.enabled then true else a.apiKeys.contains key

/-- The three outcomes of `Authenticator.authenticate` (a nil error or a
`status.Error` with a gRPC code). -/
inductive AuthStatus where
  | ok
  | unauthenticated (msg : String)
  | permissionDenied (msg : String)
deriving DecidableEq, Repr

/-- Incoming gRPC metadata: a map from keys to value lists
(`metadata.FromIncomingContext` may report no metadata at all, hence the
`Option` at use sites). -/
abbrev Metadata := List (String × List String)

/-- `md.Get("x-api-key")` (as used here: plain lookup, absent = empty). -/
def mdGet (md : Metadata) (k : String) : List String :=
  (findKey md k).getD []

/-- `Authenticator.authenticate`. -/
def Authenticator.authenticate (a : Authenticator) (md : Option Metadata) :
    AuthStatus :=
  if !a.enabled then .ok
  else
    match md with
    | none => .unauthenticated "missing metadata"
    | some m =>
      match mdGet m "x-api-key" with
      | [] => .unauthenticated "missing API key"
      | k :: _ =>
        if !(a.ValidateAPIKey k) then .permissionDenied "invalid API key" else .ok

/-- The stream interceptor returned by `Authenticator.StreamInterceptor`:
run `authenticate` and only on success invoke the wrapped handler.  The
handler's effect on the core is modelled as a registry transformation. -/
def Authenticator.streamInterceptor (a : Authenticator) (md : Option Metadata)
    (handler : Registry → Registry) (reg : Registry) : Registry × AuthStatus :=
  match a.authenticate md with
  | .ok => (handler reg, .ok)
  | st => (reg, st)

/-! ## Helper lemmas: `List.getD`, `List.drop`, association lists -/

theorem getD_append_lt {α : Type} (l l' : List α) (i : Nat) (d : α)
    (h : i < l.length) : (l ++ l').getD i d = l.getD i d := by
  induction l generalizing i with
  | nil => simp at h
  | cons a t ih =>
    cases i with
    | zero => rfl
    | succ j => exact ih j (Nat.lt_of_succ_lt_succ (by simpa using h))

theorem getD_concat_len {α : Type} (l : List α) (a : α) (d : α) :
    (l ++ [a]).getD l.length d = a := by
  induction l with
  | nil => rfl
  | cons b t ih => exact ih

theorem getD_set_self {α : Type} (l : List α) (i : Nat) (a d : α)
    (h : i < l.length) : (l.set i a).getD i d = a := by
  induction l generalizing i with
  | nil => simp at h
  | cons b t ih =>
    cases i with
    | zero => rfl
    | succ j => exact ih j (Nat.lt_of_succ_lt_succ (by simpa using h))

theorem getD_set_ne {α : Type} (l : List α) (i j : Nat) (a d : α)
    (h : i ≠ j) : (l.set i a).getD j d = l.getD j d := by
  induction l generalizing i j with
  | nil => simp
  | cons b t ih =>
    cases i with
    | zero =>
      cases j with
      | zero => exact absurd rfl h
      | succ j' => rfl
    | succ i' =>
      cases j with
      | zero => rfl
      | succ j' => exact ih i' j' (fun hc => h (by rw [hc]))

theorem getLast?_eq_getD {α : Type} (l : List α) (d : α) (h : l ≠ []) :
    l.getLast? = some (l.getD (l.length - 1) d) := by
  induction l with
  | nil => exact absurd rfl h
  | cons a t ih =>
    cases t with
    | nil => rfl
    | cons b t' => exact ih (by simp)

theorem range_map_getD_drop {α : Type} (d : α) :
    ∀ (l : List α) (start : Nat), start ≤ l.length →
      (List.range (l.length - start)).map (fun j => l.getD (j + start) d) =
        l.drop start
  | [], start, _ => by simp
  | a :: t, 0, _ => by
    rw [show (a :: t).length - 0 = t.length + 1 from rfl, List.range_succ_eq_map,
      List.map_cons, List.map_map]
    exact congrArg (List.cons a) (range_map_getD_drop d t 0 (Nat.zero_le _))
  | a :: t, s + 1, h => by
    have hlen : (a :: t).length - (s + 1) = t.length - s := by
      simp [Nat.succ_sub_succ]
    rw [hlen]
    exact range_map_getD_drop d t s (Nat.le_of_succ_le_succ (by simpa using h))

/-- Two indices of the same valid window of a ring never alias. -/
theorem mod_ne_of_lt_of_sub_lt {s i j : Nat} (hij : i < j) (hd : j - i < s) :
    j % s ≠ i % s := by
  intro heq
  have hs : 0 < s := Nat.lt_of_le_of_lt (Nat.zero_le _) hd
  have h2 : (i + (j - i)) % s = (i + 0) % s := by
    rw [Nat.add_sub_cancel' (Nat.le_of_lt hij), Nat.add_zero]; exact heq
  have h4 : Nat.ModEq s (j - i + i) (0 + i) := by
    unfold Nat.ModEq
    rw [Nat.add_comm (j - i) i, Nat.add_comm 0 i]
    exact h2
  have h5 := Nat.ModEq.add_right_cancel' i h4
  have h6 : (j - i) % s = 0 := by simpa [Nat.ModEq] using h5
  rw [Nat.mod_eq_of_lt hd] at h6
  omega

theorem setKey_cons {κ α : Type} [DecidableEq κ] (pk : κ) (pv : α)
    (t : List (κ × α)) (k : κ) (v : α) :
    setKey ((pk, pv) :: t) k v =
      (if pk = k then (k, v) else (pk, pv)) :: setKey t k v := by
  simp only [setKey, List.map_cons]

theorem findKey_setKey_self {κ α : Type} [DecidableEq κ]
    (l : List (κ × α)) (k : κ) (v : α) (h : (findKey l k).isSome) :
    findKey (setKey l k v) k = some v := by
  induction l with
  | nil => simp [findKey] at h
  | cons p t ih =>
    obtain ⟨pk, pv⟩ := p
    by_cases hp : pk = k
    · rw [setKey_cons, if_pos hp]
      simp [findKey]
    · rw [setKey_cons, if_neg hp]
      simp only [findKey, if_neg hp]
      simp only [findKey, if_neg hp] at h
      exact ih h

theorem findKey_setKey_ne {κ α : Type} [DecidableEq κ]
    (l : List (κ × α)) (k k' : κ) (v : α) (h : k' ≠ k) :
    findKey (setKey l k v) k' = findKey l k' := by
  induction l with
  | nil => rfl
  | cons p t ih =>
    obtain ⟨pk, pv⟩ := p
    by_cases hp : pk = k
    · rw [setKey_cons, if_pos hp]
      subst hp
      simpa [findKey, Ne.symm h] using ih
    · rw [setKey_cons, if_neg hp]
      by_cases hpk : pk = k'
      · simp [findKey, hpk]
      · simp only [findKey, if_neg hpk]
        exact ih

theorem findKey_append_single_self {κ α : Type} [DecidableEq κ]
    (l : List (κ × α)) (k : κ) (v : α) (h : findKey l k = none) :
    findKey (l ++ [(k, v)]) k = some v := by
  induction l with
  | nil => simp [findKey]
  | cons p t ih =>
    obtain ⟨pk, pv⟩ := p
    by_cases hp : pk = k
    · simp [findKey, hp] at h
    · simp [findKey, hp] at h ⊢
      exact ih h

theorem findKey_append_single_ne {κ α : Type} [DecidableEq κ]
    (l : List (κ × α)) (k k' : κ) (v : α) (h : k' ≠ k) :
    findKey (l ++ [(k, v)]) k' = findKey l k' := by
  induction l with
  | nil => simp [findKey, Ne.symm h]
  | cons p t ih =>
    obtain ⟨pk, pv⟩ := p
    by_cases hp : pk = k'
    · simp [findKey, hp]
    · simp [findKey, hp]
      exact ih

theorem findKey_mapAssign_self {κ α : Type} [DecidableEq κ]
    (l : List (κ × α)) (k : κ) (v : α) :
    findKey (mapAssign l k v) k = some v := by
  unfold mapAssign
  split
  · exact findKey_setKey_self l k v (by assumption)
  · exact findKey_append_single_self l k v
      (by rename_i h; cases hf : findKey l k <;> simp [hf] at h ⊢)

theorem findKey_mapAssign_ne {κ α : Type} [DecidableEq κ]
    (l : List (κ × α)) (k k' : κ) (v : α) (h : k' ≠ k) :
    findKey (mapAssign l k v) k' = findKey l k' := by
  unfold mapAssign
  split
  · exact findKey_setKey_ne l k k' v h
  · exact findKey_append_single_ne l k k' v h

/-! ## Ring representation invariant

A ring `r` represents the logical history `h` of all samples ever pushed
to it when its write counter equals `|h|` and every slot of the valid
window `[|h| - size, |h|)` holds the corresponding history element. -/

def Rep (r : Ring) (h : List Sample) : Prop :=
  r.data.length = r.size ∧ 0 < r.size ∧ r.idx = h.length ∧
    ∀ i : Nat, h.length - r.size ≤ i → i < h.length →
      r.data.getD (i % r.size) default = h.getD i default

theorem rep_new (C : Nat) (hC : 0 < C) : Rep (NewRing C) [] := by
  refine ⟨by simp [NewRing], hC, rfl, ?_⟩
  intro i _ hi
  simp at hi

theorem rep_push (r : Ring) (h : List Sample) (s : Sample) (hr : Rep r h) :
    Rep (r.Push s) (h ++ [s]) := by
  obtain ⟨hlen, hpos, hidx, hwin⟩ := hr
  refine ⟨by simpa [Ring.Push] using hlen, hpos, by simp [Ring.Push, hidx], ?_⟩
  intro i h1 h2
  simp only [Ring.Push, hidx]
  simp only [Ring.Push, List.length_append, List.length_cons, List.length_nil]
    at h1 h2
  rcases Nat.lt_or_ge i h.length with hi | hge
  · have hd : h.length - i < r.size := by omega
    have hne : h.length % r.size ≠ i % r.size :=
      mod_ne_of_lt_of_sub_lt hi hd
    rw [getD_set_ne _ _ _ _ _ hne, getD_append_lt _ _ _ _ hi]
    exact hwin i (by omega) hi
  · have hi : i = h.length := by omega
    subst hi
    rw [getD_set_self _ _ _ _ (by rw [hlen]; exact Nat.mod_lt _ hpos),
      getD_concat_len]

theorem rep_pushAll (l : List Sample) :
    ∀ (r : Ring) (h : List Sample), Rep r h → Rep (r.pushAll l) (h ++ l) := by
  induction l with
  | nil => intro r h hr; simpa [Ring.pushAll] using hr
  | cons a t ih =>
    intro r h hr
    have h1 : Rep (r.Push a) (h ++ [a]) := rep_push r h a hr
    have h2 := ih (r.Push a) (h ++ [a]) h1
    simpa [Ring.pushAll, List.foldl_cons] using h2

theorem rep_fresh (C : Nat) (hC : 0 < C) (l : List Sample) :
    Rep (Ring.pushAll (NewRing C) l) l := by
  simpa using rep_pushAll l (NewRing C) [] (rep_new C hC)

theorem pushAll_size (r : Ring) (l : List Sample) :
    (r.pushAll l).size = r.size := by
  induction l generalizing r with
  | nil => rfl
  | cons a t ih => simpa [Ring.pushAll, Ring.Push] using ih (r.Push a)

theorem rep_latest (r : Ring) (h : List Sample) (hr : Rep r h) :
    r.Latest = h.getLast? := by
  obtain ⟨hlen, hpos, hidx, hwin⟩ := hr
  unfold Ring.Latest
  rw [hidx]
  by_cases h0 : h.length = 0
  · rw [if_pos h0]
    rw [List.length_eq_zero.mp h0]
    rfl
  · rw [if_neg h0]
    rw [hwin (h.length - 1) (by omega) (by omega)]
    rw [getLast?_eq_getD h default (by simpa using List.length_pos.mp (by omega))]

theorem min_ite_gt (a b : Nat) : (if a > b then b else a) = min a b := by
  split <;> omega

theorem uint64ofInt_nonneg (k : Int) (hk0 : 0 ≤ k) (hk1 : k < 2 ^ 63) :
    uint64ofInt k = k.toNat := by
  unfold uint64ofInt UINT64_MOD
  omega

theorem rep_snapshotLast (r : Ring) (h : List Sample) (hr : Rep r h)
    (k : Int) (hk0 : 0 ≤ k) (hk1 : k < 2 ^ 63) :
    r.SnapshotLast k = h.drop (h.length - min k.toNat (min r.size h.length)) := by
  obtain ⟨hlen, hpos, hidx, hwin⟩ := hr
  have e1 : uint64ofInt k = k.toNat := uint64ofInt_nonneg k hk0 hk1
  simp only [Ring.SnapshotLast, e1, hidx, min_ite_gt]
  set W : Nat := min k.toNat (min r.size h.length) with hW
  have hW1 : min (min k.toNat r.size) h.length = W := by
    rw [hW]; omega
  rw [hW1]
  have hWn : W ≤ h.length := by omega
  have hWs : W ≤ r.size := by omega
  have hstep : ∀ j ∈ List.range W,
      r.data.getD ((h.length - W + j) % r.size) default =
        h.getD (j + (h.length - W)) default := by
    intro j hj
    have hjW : j < W := List.mem_range.mp hj
    rw [hwin (h.length - W + j) (by omega) (by omega), Nat.add_comm (h.length - W) j]
  rw [List.map_congr_left hstep]
  have hn : h.length - (h.length - W) = W := by omega
  have hfin := range_map_getD_drop default h (h.length - W) (by omega)
  rw [hn] at hfin
  exact hfin

/-- C3: after any `N` consecutive pushes into a fresh ring of capacity
`C > 0`, `Len() = min(N, C)`, `Count() = N`, and `Latest()` is the most
recently pushed sample (absent for `N = 0`). -/
theorem ring_pushes_len_count_latest (C : Nat) (l : List Sample) (hC : 0 < C) :
    (Ring.pushAll (NewRing C) l).Len = min l.length C ∧
    (Ring.pushAll (NewRing C) l).Count = l.length ∧
    (Ring.pushAll (NewRing C) l).Latest = l.getLast? := by
  have hr := rep_fresh C hC l
  have hsize : (Ring.pushAll (NewRing C) l).size = C := by
    rw [pushAll_size]
    rfl
  refine ⟨?_, ?_, rep_latest _ l hr⟩
  · unfold Ring.Len
    rw [hr.2.2.1, hsize, min_ite_gt]
  · exact hr.2.2.1

/-- Sample sequence used by concrete witnesses. -/
def sampleSeq3 : List Sample := [{ ts := 1, val := 1 }, { ts := 2, val := 2 }, { ts := 3, val := 3 }]

/-- Witness for C3: capacity 2, three pushes — `Len = 2`, `Count = 3`,
`Latest = (3, 3)`; and no pushes — `Latest` absent. -/
theorem ring_pushes_len_count_latest_witness :
    (0 < 2 ∧
      (Ring.pushAll (NewRing 2) sampleSeq3).Len = min sampleSeq3.length 2 ∧
      (Ring.pushAll (NewRing 2) sampleSeq3).Count = sampleSeq3.length ∧
      (Ring.pushAll (NewRing 2) sampleSeq3).Latest = sampleSeq3.getLast?) ∧
    (Ring.pushAll (NewRing 2) sampleSeq3).Latest = some { ts := 3, val := 3 } ∧
    (Ring.pushAll (NewRing 2) []).Latest = none :=
  ⟨⟨by decide, ring_pushes_len_count_latest 2 sampleSeq3 (by decide)⟩,
    by decide, (ring_pushes_len_count_latest 2 [] (by decide)).2.2⟩

/-- C4: `SnapshotLast(k)` on a fresh ring of capacity `C > 0` after
pushing the sequence `l` returns exactly the last `min(k, C, |l|)`
samples of `l`, oldest first (for `k` in the non-negative `int64`
range). -/
theorem ring_snapshotLast_window (C : Nat) (l : List Sample) (k : Int)
    (hC : 0 < C) (hk0 : 0 ≤ k) (hk1 : k < 2 ^ 63) :
    (Ring.pushAll (NewRing C) l).SnapshotLast k =
      l.drop (l.length - min k.toNat (min C l.length)) := by
  have hr := rep_fresh C hC l
  have hsize : (Ring.pushAll (NewRing C) l).size = C := by
    rw [pushAll_size]
    rfl
  rw [rep_snapshotLast _ l hr k hk0 hk1, hsize]

/-- Sample sequence 1..6 of the wraparound scenario. -/
def sampleSeq6 : List Sample :=
  [{ ts := 1, val := 1 }, { ts := 2, val := 2 }, { ts := 3, val := 3 },
   { ts := 4, val := 4 }, { ts := 5, val := 5 }, { ts := 6, val := 6 }]

/-- Witness for C4: capacity 4, pushes 1..6, `SnapshotLast(10)` is
exactly `[{3,3},{4,4},{5,5},{6,6}]`, with `Count = 6` and `Len = 4`. -/
theorem ring_snapshotLast_window_witness :
    (0 < 4 ∧ (0 : Int) ≤ 10 ∧ (10 : Int) < 2 ^ 63 ∧
      (Ring.pushAll (NewRing 4) sampleSeq6).SnapshotLast 10 =
        sampleSeq6.drop (sampleSeq6.length - min (10 : Int).toNat (min 4 sampleSeq6.length))) ∧
    (Ring.pushAll (NewRing 4) sampleSeq6).SnapshotLast 10 =
      [{ ts := 3, val := 3 }, { ts := 4, val := 4 }, { ts := 5, val := 5 },
        { ts := 6, val := 6 }] ∧
    (Ring.pushAll (NewRing 4) sampleSeq6).Count = 6 ∧
    (Ring.pushAll (NewRing 4) sampleSeq6).Len = 4 :=
  ⟨⟨by decide, by decide, by decide,
      ring_snapshotLast_window 4 sampleSeq6 10 (by decide) (by decide) (by decide)⟩,
    by decide, by decide, by decide⟩

/-- C10: `SnapshotLast` is total over all `int` arguments; a negative
`n` wraps modulo 2^64 to at least the capacity (any Go slice length is
at most 2^63), so the result is the full valid window — the same as
`SnapshotLast(C)`. -/
theorem ring_snapshotLast_negative (r : Ring) (n : Int)
    (hs : r.size ≤ 2 ^ 63) (hn0 : -(2 ^ 63) ≤ n) (hn1 : n < 0) :
    r.size ≤ uint64ofInt n ∧ r.SnapshotLast n = r.SnapshotLast (r.size : Int) := by
  have hge : r.size ≤ uint64ofInt n := by
    unfold uint64ofInt UINT64_MOD
    omega
  have he : uint64ofInt (r.size : Int) = r.size := by
    unfold uint64ofInt UINT64_MOD
    omega
  refine ⟨hge, ?_⟩
  simp only [Ring.SnapshotLast, he]
  have h2 : (if uint64ofInt n > r.size then r.size else uint64ofInt n) = r.size := by
    split <;> omega
  have h3 : (if r.size > r.size then r.size else r.size) = r.size := by
    split <;> rfl
  rw [h2, h3]

/-- Witness for C10: capacity 2, three pushes, `SnapshotLast(-1)`
equals `SnapshotLast(2)` (the full window `[(2,2),(3,3)]`). -/
theorem ring_snapshotLast_negative_witness :
    ((Ring.pushAll (NewRing 2) sampleSeq3).size ≤ 2 ^ 63 ∧
      -(2 ^ 63) ≤ (-1 : Int) ∧ (-1 : Int) < 0 ∧
      2 ≤ uint64ofInt (-1) ∧
      (Ring.pushAll (NewRing 2) sampleSeq3).SnapshotLast (-1) =
        (Ring.pushAll (NewRing 2) sampleSeq3).SnapshotLast
          (((Ring.pushAll (NewRing 2) sampleSeq3).size : Int))) ∧
    (Ring.pushAll (NewRing 2) sampleSeq3).SnapshotLast (-1) =
      [{ ts := 2, val := 2 }, { ts := 3, val := 3 }] :=
  ⟨⟨by decide, by decide, by decide,
      (ring_snapshotLast_negative (Ring.pushAll (NewRing 2) sampleSeq3) (-1)
        (by decide) (by decide) (by decide)).1,
      (ring_snapshotLast_negative (Ring.pushAll (NewRing 2) sampleSeq3) (-1)
        (by decide) (by decide) (by decide)).2⟩,
    by decide⟩

/-! ## Registry get-or-create (C7) -/

/-- C7: get-or-create is idempotent for all three variants: a second call
with the same key returns exactly the first call's result (registry
unchanged, same ring), and a call for an already-present key returns the
stored ring without touching the registry. -/
theorem registry_get_or_create_idempotent (reg : Registry) (service name : String) :
    ((reg.GetRing service name).1.GetRing service name = reg.GetRing service name ∧
      (reg.GetCounterRing service name).1.GetCounterRing service name =
        reg.GetCounterRing service name ∧
      (reg.GetHistogramRing service name).1.GetHistogramRing service name =
        reg.GetHistogramRing service name) ∧
    ((∀ ring, findKey reg.gauges { service := service, name := name } = some ring →
        reg.GetRing service name = (reg, ring)) ∧
      (∀ ring, findKey reg.counters { service := service, name := name } = some ring →
        reg.GetCounterRing service name = (reg, ring)) ∧
      (∀ ring, findKey reg.histograms { service := service, name := name } = some ring →
        reg.GetHistogramRing service name = (reg, ring))) := by
  refine ⟨⟨?_, ?_, ?_⟩, ?_, ?_, ?_⟩
  · cases hf : findKey reg.gauges { service := service, name := name } with
    | some ring => simp [Registry.GetRing, hf]
    | none => simp [Registry.GetRing, hf, findKey_mapAssign_self]
  · cases hf : findKey reg.counters { service := service, name := name } with
    | some ring => simp [Registry.GetCounterRing, hf]
    | none => simp [Registry.GetCounterRing, hf, findKey_mapAssign_self]
  · cases hf : findKey reg.histograms { service := service, name := name } with
    | some ring => simp [Registry.GetHistogramRing, hf]
    | none => simp [Registry.GetHistogramRing, hf, findKey_mapAssign_self]
  · intro ring hf
    simp [Registry.GetRing, hf]
  · intro ring hf
    simp [Registry.GetCounterRing, hf]
  · intro ring hf
    simp [Registry.GetHistogramRing, hf]

/-- A registry already holding the gauge ring for ("s", "g"). -/
def regWithGauge : Registry := (NewRegistry.GetRing "s" "g").1

/-- Witness for C7: on `regWithGauge` the second `GetRing` call returns
the first call's pair, and the stored ring is returned unchanged. -/
theorem registry_get_or_create_idempotent_witness :
    (regWithGauge.GetRing "s" "g").1.GetRing "s" "g" = regWithGauge.GetRing "s" "g" ∧
    (findKey regWithGauge.gauges { service := "s", name := "g" } =
        some (NewRing DefaultRingSize) ∧
      regWithGauge.GetRing "s" "g" = (regWithGauge, NewRing DefaultRingSize)) :=
  ⟨(registry_get_or_create_idempotent regWithGauge "s" "g").1.1,
    rfl,
    (registry_get_or_create_idempotent regWithGauge "s" "g").2.1
      (NewRing DefaultRingSize) rfl⟩

/-! ## Fresh-push evaluation lemmas -/

theorem latest_push_fresh (m : Nat) (s : Sample) :
    ((NewRing (m + 1)).Push s).Latest = some s := by
  simp [NewRing, Ring.Push, Ring.Latest, List.replicate_succ]

theorem latest_push_newRing_default (s : Sample) :
    ((NewRing DefaultRingSize).Push s).Latest = some s := by
  have h : DefaultRingSize = 999 + 1 := rfl
  rw [h]
  exact latest_push_fresh 999 s

theorem hist_latest_push_fresh (m : Nat) (h : HistogramData) :
    ((NewHistogramRing (m + 1)).Push h).Latest = some h := by
  simp [NewHistogramRing, HistogramRing.Push, HistogramRing.Latest,
    List.replicate_succ]

theorem hist_latest_push_newRing_default (h : HistogramData) :
    ((NewHistogramRing HistogramRingSize).Push h).Latest = some h := by
  have e : HistogramRingSize = 499 + 1 := rfl
  rw [e]
  exact hist_latest_push_fresh 499 h

/-! ## Ingest-path evaluation lemmas -/

theorem processSample_gauge_fresh (s n : String) (t : Nat) (v : F64) :
    processSample NewRegistry s n { timestampNs := t, value := .gauge v } =
      { gauges := [({ service := s, name := n },
          (NewRing DefaultRingSize).Push { ts := int64ofUInt64 t, val := v })],
        counters := [], histograms := [] } := by
  simp [processSample, Registry.GetRing, NewRegistry, findKey, mapAssign, setKey]

theorem processSample_counter_emptyCounters (reg : Registry) (s n : String)
    (t c : Nat) (hempty : reg.counters = []) :
    processSample reg s n { timestampNs := t, value := .counter c } =
      { reg with counters := [({ service := s, name := n },
          (NewRing DefaultRingSize).Push
            { ts := int64ofUInt64 t, val := float64ofUInt64 c })] } := by
  simp [processSample, Registry.GetCounterRing, hempty, findKey, mapAssign, setKey]

theorem processSample_histogram_fresh (s n : String) (t : Nat)
    (bounds : List F64) (counts : List Nat) :
    processSample NewRegistry s n
        { timestampNs := t, value := .histogram bounds counts } =
      { gauges := [], counters := [],
        histograms := [({ service := s, name := n },
          (NewHistogramRing HistogramRingSize).Push
            { ts := int64ofUInt64 t, bounds := bounds, counts := counts })] } := by
  simp [processSample, Registry.GetHistogramRing, NewRegistry, findKey, mapAssign,
    setKey]

/-! ## Variant conflict (C1) -/

/-- The registry after ingesting one gauge sample for `(s, n)`. -/
def regAfterGauge (s n inst : String) (t1 : Nat) (v : F64) : Registry :=
  processMetric NewRegistry s inst
    { name := n, labels := [],
      samples := [{ timestampNs := t1, value := .gauge v }] }

/-- The registry after then ingesting one counter sample for the same key. -/
def regAfterGaugeThenCounter (s n inst : String) (t1 t2 : Nat) (v : F64)
    (c : Nat) : Registry :=
  processMetric (regAfterGauge s n inst t1 v) s inst
    { name := n, labels := [],
      samples := [{ timestampNs := t2, value := .counter c }] }

theorem regAfterGauge_eq (s n inst : String) (t1 : Nat) (v : F64) :
    regAfterGauge s n inst t1 v =
      { gauges := [({ service := s, name := n },
          (NewRing DefaultRingSize).Push { ts := int64ofUInt64 t1, val := v })],
        counters := [], histograms := [] } := by
  unfold regAfterGauge processMetric
  simp only [List.foldl_cons, List.foldl_nil]
  exact processSample_gauge_fresh s n t1 v

theorem regAfterGaugeThenCounter_eq (s n inst : String) (t1 t2 : Nat) (v : F64)
    (c : Nat) :
    regAfterGaugeThenCounter s n inst t1 t2 v c =
      { gauges := (regAfterGauge s n inst t1 v).gauges,
        counters := [({ service := s, name := n },
          (NewRing DefaultRingSize).Push
            { ts := int64ofUInt64 t2, val := float64ofUInt64 c })],
        histograms := [] } := by
  unfold regAfterGaugeThenCounter processMetric
  simp only [List.foldl_cons, List.foldl_nil]
  rw [processSample_counter_emptyCounters _ _ _ _ _ (by rw [regAfterGauge_eq])]
  rw [regAfterGauge_eq]

/-- C1 corrected: ingesting a counter for a key already bound to a gauge
is not rejected — there is no variant binding, no typed error and no
conflict counter.  The gauge history is indeed unchanged (the two
variants live in separate maps), but the counter sample is stored and the
latest snapshot gains a counters entry for the key. -/
theorem variantConflict_amended (s n inst : String) (t1 t2 : Nat) (v : F64)
    (c : Nat) :
    (regAfterGaugeThenCounter s n inst t1 t2 v c).gauges =
        (regAfterGauge s n inst t1 v).gauges ∧
      findKey (regAfterGaugeThenCounter s n inst t1 t2 v c).LatestSnapshot.counters
          { service := s, name := n } =
        some { ts := int64ofUInt64 t2, val := float64ofUInt64 c } := by
  constructor
  · rw [regAfterGaugeThenCounter_eq]
  · rw [regAfterGaugeThenCounter_eq]
    simp only [Registry.LatestSnapshot, List.filterMap_cons, List.filterMap_nil,
      latest_push_newRing_default, Option.map_some']
    simp [findKey]

/-- C1 counterexample: after pushing a gauge and then a counter for
("s1", "x"), `latest_snapshot().counters` DOES have an entry for
("s1", "x") — the counter write was not rejected, contradicting the
claimed variant-conflict rejection (no conflict counter exists in the
code at all). -/
theorem variantConflict_counterexample :
    findKey (regAfterGaugeThenCounter "s1" "x" "i1" 1 2 1 5).LatestSnapshot.counters
        { service := "s1", name := "x" } =
      some { ts := 2, val := 5 } ∧
    (regAfterGaugeThenCounter "s1" "x" "i1" 1 2 1 5).gauges =
      (regAfterGauge "s1" "x" "i1" 1 1).gauges := by
  constructor
  · rw [(variantConflict_amended "s1" "x" "i1" 1 2 1 5).2]
    rfl
  · exact (variantConflict_amended "s1" "x" "i1" 1 2 1 5).1

/-! ## Histogram shape (C5) -/

/-- The registry after ingesting one histogram sample. -/
def regAfterHistogram (s n inst : String) (t : Nat) (bounds : List F64)
    (counts : List Nat) : Registry :=
  processMetric NewRegistry s inst
    { name := n, labels := [],
      samples := [{ timestampNs := t, value := .histogram bounds counts }] }

/-- C5 corrected: the ingest path performs no validation of histogram
shape — the sample is stored verbatim, whatever the relative lengths of
`bounds` and `counts`. -/
theorem histogram_stored_verbatim (s n inst : String) (t : Nat)
    (bounds : List F64) (counts : List Nat) :
    ∃ ring, findKey (regAfterHistogram s n inst t bounds counts).histograms
        { service := s, name := n } = some ring ∧
      ring.Latest = some { ts := int64ofUInt64 t, bounds := bounds, counts := counts } := by
  refine ⟨(NewHistogramRing HistogramRingSize).Push
    { ts := int64ofUInt64 t, bounds := bounds, counts := counts }, ?_, ?_⟩
  · unfold regAfterHistogram processMetric
    simp only [List.foldl_cons, List.foldl_nil]
    rw [processSample_histogram_fresh]
    simp [findKey]
  · exact hist_latest_push_newRing_default _

/-- C5 counterexample: a histogram sample with `len(bounds) = 1` and
`len(counts) = 3` is accepted and stored as-is, so the stored
`HistogramData` violates `len(counts) == len(bounds)` — nothing enforces
the claimed convention on ingest. -/
theorem histogram_shape_counterexample :
    (findKey (regAfterHistogram "s1" "h" "i1" 1 [1] [1, 2, 3]).histograms
        { service := "s1", name := "h" }).map
        (fun ring => ring.Latest.map (fun h => (h.counts.length, h.bounds.length))) =
      some (some (3, 1)) ∧ (3 : Nat) ≠ 1 := by
  constructor
  · obtain ⟨ring, hfind, hlatest⟩ :=
      histogram_stored_verbatim "s1" "h" "i1" 1 [1] [1, 2, 3]
    rw [hfind]
    simp [hlatest]
  · decide

/-! ## Mailbox drop (C2) -/

/-- A subscriber with an empty filter and a mailbox of capacity 2
(scenario 5 instantiates the capacity-256 mailbox at capacity 2). -/
def scenarioClient : Client := { subs := [], send := [], sendCap := 2 }

/-- A hub with that single live subscriber. -/
def scenarioHub : Hub := { clients := [scenarioClient], updates := [] }

/-- The hub after `n` broadcast ticks (at times 1, 2, ...) with no
consumption by the subscriber. -/
def hubAfter (n : Nat) : Hub :=
  (List.range n).foldl
    (fun h i => h.broadcastSnapshot NewRegistry ((i : Int) + 1)) scenarioHub

/-- C2 counterexample: dropping is a complete no-op on the hub state.
After the mailbox (capacity 2) is full, the third broadcast returns the
hub exactly unchanged, and ticks 3..5 leave the state identical — so no
per-subscriber drop counter is incremented (none exists in the code),
contradicting the claimed counter increment of 3. -/
theorem mailboxDrop_counterexample :
    Hub.broadcastSnapshot (hubAfter 2) NewRegistry 3 = hubAfter 2 ∧
    hubAfter 5 = hubAfter 2 := by
  constructor
  · decide
  · decide

/-- C2 corrected: with mailbox capacity 2 and 5 ticks, exactly the first
2 messages are queued and the later 3 are dropped silently (no drop
counter is maintained); the subscriber stays in the live set. -/
theorem mailboxDrop_amended :
    (hubAfter 5).clients.map (fun c => c.send.length) = [2] ∧
    (hubAfter 5).clients.map (fun c => c.send) =
      [[Hub.buildClientMessage scenarioClient NewRegistry.LatestSnapshot 1,
        Hub.buildClientMessage scenarioClient NewRegistry.LatestSnapshot 2]] ∧
    (hubAfter 5).clients.length = 1 := by
  refine ⟨?_, ?_, ?_⟩ <;> decide

/-! ## Stream termination (C8) -/

/-- C8: exactly a clean end-of-stream is answered with `Ack{ok: true}`;
any other receive error is returned with no acknowledgment sent; and in
both cases every batch received before the end has already been written
to the registry (no rollback). -/
theorem streamTelemetry_ack_eof_only (reg : Registry) (hub : Hub)
    (batches : List TelemetryBatch) (term : StreamEnd) :
    (StreamTelemetry reg hub batches term).registry =
        batches.foldl processBatch reg ∧
      (StreamTelemetry reg hub batches term).acks =
        (match term with | .eof => [{ ok := true }] | .failure _ => []) ∧
      (StreamTelemetry reg hub batches term).err =
        (match term with | .eof => none | .failure e => some e) ∧
      ((StreamTelemetry reg hub batches term).acks = [{ ok := true }] ↔
        term = .eof) := by
  induction batches generalizing reg hub with
  | nil => cases term <;> simp [StreamTelemetry]
  | cons b rest ih =>
    simp only [StreamTelemetry, List.foldl_cons]
    exact ih (processBatch reg b) (hub.NotifyUpdate b.service)

/-! ## Authentication (C9) -/

/-- C9: with authentication enabled, a request without an `x-api-key`
metadata entry is rejected `Unauthenticated`, and one whose first
`x-api-key` value is not in the key set is rejected `PermissionDenied`;
in both cases the interceptor never invokes the handler, so the registry
is untouched. -/
theorem auth_rejects_bad_key (a : Authenticator) (md : Option Metadata)
    (handler : Registry → Registry) (reg : Registry)
    (henabled : a.enabled = true) :
    ((md = none ∨ (∃ m, md = some m ∧ mdGet m "x-api-key" = [])) →
      ∃ msg, a.authenticate md = .unauthenticated msg ∧
        a.streamInterceptor md handler reg = (reg, .unauthenticated msg)) ∧
    (∀ m k rest, md = some m → mdGet m "x-api-key" = k :: rest →
      a.apiKeys.contains k = false →
      a.authenticate md = .permissionDenied "invalid API key" ∧
        a.streamInterceptor md handler reg =
          (reg, .permissionDenied "invalid API key")) := by
  constructor
  · rintro (rfl | ⟨m, rfl, hkeys⟩)
    · exact ⟨"missing metadata",
        by simp [Authenticator.authenticate, henabled],
        by simp [Authenticator.streamInterceptor, Authenticator.authenticate,
          henabled]⟩
    · exact ⟨"missing API key",
        by simp [Authenticator.authenticate, henabled, hkeys],
        by simp [Authenticator.streamInterceptor, Authenticator.authenticate,
          henabled, hkeys]⟩
  · rintro m k rest rfl hkeys hcontains
    have hmem : k ∉ a.apiKeys := by simpa using hcontains
    constructor
    · simp [Authenticator.authenticate, henabled, hkeys,
        Authenticator.ValidateAPIKey, hmem]
    · simp [Authenticator.streamInterceptor, Authenticator.authenticate,
        henabled, hkeys, Authenticator.ValidateAPIKey, hmem]

/-- The enabled authenticator used by the C9 witness. -/
def authWitnessConfig : Authenticator := { apiKeys := ["k1"], enabled := true }

/-- A nontrivial handler used by the C9 witness (it would grow the
registry if it ever ran). -/
def authWitnessHandler (r : Registry) : Registry := (r.GetRing "s" "g").1

/-- Witness for C9: metadata without `x-api-key` is Unauthenticated,
metadata with an unknown key is PermissionDenied, and the registry comes
back unchanged in both cases. -/
theorem auth_rejects_bad_key_witness :
    (authWitnessConfig.enabled = true ∧
      (∃ msg, authWitnessConfig.authenticate (some []) = .unauthenticated msg ∧
        authWitnessConfig.streamInterceptor (some []) authWitnessHandler
          NewRegistry = (NewRegistry, .unauthenticated msg))) ∧
    (authWitnessConfig.authenticate (some [("x-api-key", ["bad"])]) =
        .permissionDenied "invalid API key" ∧
      authWitnessConfig.streamInterceptor (some [("x-api-key", ["bad"])])
          authWitnessHandler NewRegistry =
        (NewRegistry, .permissionDenied "invalid API key")) :=
  ⟨⟨rfl,
      (auth_rejects_bad_key authWitnessConfig (some []) authWitnessHandler
        NewRegistry rfl).1 (Or.inr ⟨[], rfl, rfl⟩)⟩,
    (auth_rejects_bad_key authWitnessConfig (some [("x-api-key", ["bad"])])
      authWitnessHandler NewRegistry rfl).2 [("x-api-key", ["bad"])] "bad" []
      rfl rfl (by decide)⟩

/-! ## Filtered broadcast (C6) -/

theorem findKey_filteredMap_aux {α : Type} [DecidableEq α]
    (snap : List (MetricKey × α)) (mk : MetricKey) :
    ∀ (subs : List Subscription) (acc : List (String × α)),
      (∀ sub ∈ subs, (subKey sub).keyString = mk.keyString → subKey sub = mk) →
      findKey (subs.foldl (filteredStep snap) acc) mk.keyString =
        if (∃ sub ∈ subs, subKey sub = mk) ∧ (findKey snap mk).isSome = true
        then findKey snap mk
        else findKey acc mk.keyString := by
  intro subs
  induction subs with
  | nil =>
    intro acc _
    simp
  | cons sub rest ih =>
    intro acc hinj
    have hinj_rest : ∀ s' ∈ rest,
        (subKey s').keyString = mk.keyString → subKey s' = mk :=
      fun s' hs' => hinj s' (List.mem_cons_of_mem _ hs')
    have hinj_sub := hinj sub (List.mem_cons_self _ _)
    simp only [List.foldl_cons]
    by_cases hk : subKey sub = mk
    · cases hs : findKey snap mk with
      | some v =>
        have hstep : filteredStep snap acc sub = mapAssign acc mk.keyString v := by
          simp [filteredStep, hk, hs]
        rw [hstep, ih _ hinj_rest, hs]
        simp only [Option.isSome_some, and_true]
        by_cases hrest : ∃ s' ∈ rest, subKey s' = mk
        · rw [if_pos hrest, if_pos ⟨sub, List.mem_cons_self _ _, hk⟩]
        · rw [if_neg hrest, if_pos ⟨sub, List.mem_cons_self _ _, hk⟩,
            findKey_mapAssign_self]
      | none =>
        have hstep : filteredStep snap acc sub = acc := by
          simp [filteredStep, hk, hs]
        rw [hstep, ih _ hinj_rest, hs]
        simp
    · have hks : (subKey sub).keyString ≠ mk.keyString :=
        fun hc => hk (hinj_sub hc)
      have hstep : findKey (filteredStep snap acc sub) mk.keyString =
          findKey acc mk.keyString := by
        unfold filteredStep
        cases hfs : findKey snap (subKey sub) with
        | some v => exact findKey_mapAssign_ne _ _ _ _ (Ne.symm hks)
        | none => rfl
      rw [ih _ hinj_rest, hstep]
      by_cases hex : (∃ s' ∈ rest, subKey s' = mk) ∧ (findKey snap mk).isSome = true
      · obtain ⟨⟨x, hx, hxk⟩, hsome⟩ := hex
        rw [if_pos ⟨⟨x, hx, hxk⟩, hsome⟩,
          if_pos ⟨⟨x, List.mem_cons_of_mem _ hx, hxk⟩, hsome⟩]
      · have hcond : ¬((∃ x ∈ sub :: rest, subKey x = mk) ∧
            (findKey snap mk).isSome = true) := by
          rintro ⟨⟨x, hx, hxk⟩, hsome⟩
          rcases List.mem_cons.mp hx with rfl | hx'
          · exact hk hxk
          · exact hex ⟨⟨x, hx', hxk⟩, hsome⟩
        rw [if_neg hex, if_neg hcond]

theorem findKey_filteredMap_mem {α : Type} [DecidableEq α]
    (snap : List (MetricKey × α)) (mk : MetricKey) (subs : List Subscription)
    (hinj : ∀ sub ∈ subs, (subKey sub).keyString = mk.keyString → subKey sub = mk)
    (hmem : ∃ sub ∈ subs, subKey sub = mk) :
    findKey (filteredMap snap subs) mk.keyString = findKey snap mk := by
  unfold filteredMap
  rw [findKey_filteredMap_aux snap mk subs [] hinj]
  by_cases hsome : (findKey snap mk).isSome = true
  · rw [if_pos ⟨hmem, hsome⟩]
  · rw [if_neg (fun hc => hsome hc.2)]
    rw [Option.not_isSome_iff_eq_none.mp hsome]
    rfl

theorem findKey_filteredMap_absent {α : Type} [DecidableEq α]
    (snap : List (MetricKey × α)) (s : String) :
    ∀ (subs : List Subscription) (acc : List (String × α)),
      (∀ sub ∈ subs, (subKey sub).keyString ≠ s) →
      findKey (subs.foldl (filteredStep snap) acc) s = findKey acc s := by
  intro subs
  induction subs with
  | nil =>
    intro acc _
    rfl
  | cons sub rest ih =>
    intro acc hne
    simp only [List.foldl_cons]
    rw [ih _ (fun s' hs' => hne s' (List.mem_cons_of_mem _ hs'))]
    unfold filteredStep
    cases hfs : findKey snap (subKey sub) with
    | some v =>
      exact findKey_mapAssign_ne _ _ _ _
        (Ne.symm (hne sub (List.mem_cons_self _ _)))
    | none => rfl

theorem findKey_filteredMap_none {α : Type} [DecidableEq α]
    (snap : List (MetricKey × α)) (s : String) (subs : List Subscription)
    (hne : ∀ sub ∈ subs, (subKey sub).keyString ≠ s) :
    findKey (filteredMap snap subs) s = none := by
  unfold filteredMap
  rw [findKey_filteredMap_absent snap s subs [] hne]
  rfl

theorem findKey_convert_skip {α : Type} [DecidableEq α] (s : String) :
    ∀ (snap : List (MetricKey × α)) (acc : List (String × α)),
      (∀ p ∈ snap, p.1.keyString ≠ s) →
      findKey (snap.foldl (fun acc p => mapAssign acc p.1.keyString p.2) acc) s =
        findKey acc s := by
  intro snap
  induction snap with
  | nil =>
    intro acc _
    rfl
  | cons p rest ih =>
    intro acc hne
    simp only [List.foldl_cons]
    rw [ih _ (fun q hq => hne q (List.mem_cons_of_mem _ hq))]
    exact findKey_mapAssign_ne _ _ _ _
      (Ne.symm (hne p (List.mem_cons_self _ _)))

theorem findKey_convert_aux {α : Type} [DecidableEq α] (mk : MetricKey) :
    ∀ (snap : List (MetricKey × α)) (acc : List (String × α)),
      (∀ p ∈ snap, p.1.keyString = mk.keyString → p.1 = mk) →
      (snap.map Prod.fst).Nodup →
      findKey (snap.foldl (fun acc p => mapAssign acc p.1.keyString p.2) acc)
          mk.keyString =
        (match findKey snap mk with
          | some v => some v
          | none => findKey acc mk.keyString) := by
  intro snap
  induction snap with
  | nil =>
    intro acc _ _
    rfl
  | cons p rest ih =>
    intro acc hinj hnodup
    obtain ⟨pk, pv⟩ := p
    have hinj_rest : ∀ q ∈ rest, q.1.keyString = mk.keyString → q.1 = mk :=
      fun q hq => hinj q (List.mem_cons_of_mem _ hq)
    have hnodup2 : pk ∉ rest.map Prod.fst ∧ (rest.map Prod.fst).Nodup := by
      rw [List.map_cons, List.nodup_cons] at hnodup
      exact hnodup
    simp only [List.foldl_cons]
    by_cases hp : pk = mk
    · have hskip : ∀ q ∈ rest, q.1.keyString ≠ mk.keyString := by
        intro q hq hqs
        have hqk : q.1 = mk := hinj_rest q hq hqs
        apply hnodup2.1
        rw [← hp] at hqk
        rw [← hqk]
        exact List.mem_map_of_mem Prod.fst hq
      rw [findKey_convert_skip mk.keyString rest _ hskip]
      rw [show mapAssign acc pk.keyString pv = mapAssign acc mk.keyString pv from
        by rw [hp]]
      rw [findKey_mapAssign_self]
      rw [show findKey ((pk, pv) :: rest) mk = some pv from by simp [findKey, hp]]
    · have hps : pk.keyString ≠ mk.keyString :=
        fun hc => hp (hinj (pk, pv) (List.mem_cons_self _ _) hc)
      rw [ih _ hinj_rest hnodup2.2]
      rw [findKey_mapAssign_ne _ _ _ _ (Ne.symm hps)]
      rw [show findKey ((pk, pv) :: rest) mk = findKey rest mk from
        by simp [findKey, hp]]

theorem findKey_convert {α : Type} [DecidableEq α]
    (snap : List (MetricKey × α)) (mk : MetricKey)
    (hinj : ∀ p ∈ snap, p.1.keyString = mk.keyString → p.1 = mk)
    (hnodup : (snap.map Prod.fst).Nodup) :
    findKey (convertByKeyString snap) mk.keyString = findKey snap mk := by
  unfold convertByKeyString
  rw [findKey_convert_aux mk snap [] hinj hnodup]
  cases hf : findKey snap mk <;> rfl

/-- C6: with an empty filter the tick message contains every snapshot
entry (looked up under the canonical string key), and with a non-empty
filter it contains exactly the snapshot entries whose key appears in the
filter: a filtered key's entries agree with the snapshot, and a string
matching no filter entry is absent.  (The injectivity and no-duplicate
hypotheses say that the relevant canonical string keys do not collide,
which is the spec's premise that `"<service>/<metric>"` is the canonical
form of a `MetricKey`.) -/
theorem hub_filtered_broadcast (client : Client) (snapshot : LatestSnapshot)
    (now : Int) (mk : MetricKey) (s : String) :
    (client.subs = [] →
      ((∀ p ∈ snapshot.gauges, p.1.keyString = mk.keyString → p.1 = mk) →
          (snapshot.gauges.map Prod.fst).Nodup →
          findKey (Hub.buildClientMessage client snapshot now).gauges
              mk.keyString = findKey snapshot.gauges mk) ∧
        ((∀ p ∈ snapshot.counters, p.1.keyString = mk.keyString → p.1 = mk) →
          (snapshot.counters.map Prod.fst).Nodup →
          findKey (Hub.buildClientMessage client snapshot now).counters
              mk.keyString = findKey snapshot.counters mk) ∧
        ((∀ p ∈ snapshot.histograms, p.1.keyString = mk.keyString → p.1 = mk) →
          (snapshot.histograms.map Prod.fst).Nodup →
          findKey (Hub.buildClientMessage client snapshot now).histograms
              mk.keyString = findKey snapshot.histograms mk)) ∧
    (client.subs ≠ [] →
      ((∀ sub ∈ client.subs,
            (subKey sub).keyString = mk.keyString → subKey sub = mk) →
          (∃ sub ∈ client.subs, subKey sub = mk) →
          findKey (Hub.buildClientMessage client snapshot now).gauges
              mk.keyString = findKey snapshot.gauges mk ∧
            findKey (Hub.buildClientMessage client snapshot now).counters
                mk.keyString = findKey snapshot.counters mk ∧
            findKey (Hub.buildClientMessage client snapshot now).histograms
                mk.keyString = findKey snapshot.histograms mk) ∧
        ((∀ sub ∈ client.subs, (subKey sub).keyString ≠ s) →
          findKey (Hub.buildClientMessage client snapshot now).gauges s = none ∧
            findKey (Hub.buildClientMessage client snapshot now).counters s =
              none ∧
            findKey (Hub.buildClientMessage client snapshot now).histograms s =
              none)) := by
  constructor
  · intro hempty
    simp only [Hub.buildClientMessage, if_pos hempty]
    exact ⟨fun hinj hnd => findKey_convert _ mk hinj hnd,
      fun hinj hnd => findKey_convert _ mk hinj hnd,
      fun hinj hnd => findKey_convert _ mk hinj hnd⟩
  · intro hnonempty
    simp only [Hub.buildClientMessage, if_neg hnonempty]
    exact ⟨fun hinj hmem =>
        ⟨findKey_filteredMap_mem _ _ _ hinj hmem,
          findKey_filteredMap_mem _ _ _ hinj hmem,
          findKey_filteredMap_mem _ _ _ hinj hmem⟩,
      fun habs =>
        ⟨findKey_filteredMap_none _ _ _ habs,
          findKey_filteredMap_none _ _ _ habs,
          findKey_filteredMap_none _ _ _ habs⟩⟩

/-- The two-gauge snapshot of the filtered-broadcast scenario. -/
def snapshotTwoGauges : LatestSnapshot :=
  { gauges := [({ service := "s1", name := "a" }, { ts := 100, val := 1 }),
      ({ service := "s1", name := "b" }, { ts := 100, val := 2 })],
    counters := [], histograms := [] }

/-- A subscriber filtering on ("s1", "a") only. -/
def clientFilterA : Client :=
  { subs := [{ service := "s1", metric := "a" }], send := [], sendCap := 256 }

/-- A subscriber with an empty filter. -/
def clientNoFilter : Client := { subs := [], send := [], sendCap := 256 }

/-- Witness for C6: with filter [("s1","a")] the tick message carries
gauge "s1/a" with value 1 and no entry "s1/b"; with an empty filter it
carries both gauges. -/
theorem hub_filtered_broadcast_witness :
    (clientFilterA.subs ≠ [] ∧
      findKey (Hub.buildClientMessage clientFilterA snapshotTwoGauges 7).gauges
          "s1/a" = some { ts := 100, val := 1 } ∧
      findKey (Hub.buildClientMessage clientFilterA snapshotTwoGauges 7).gauges
          "s1/b" = none) ∧
    (clientNoFilter.subs = [] ∧
      findKey (Hub.buildClientMessage clientNoFilter snapshotTwoGauges 7).gauges
          "s1/a" = some { ts := 100, val := 1 } ∧
      findKey (Hub.buildClientMessage clientNoFilter snapshotTwoGauges 7).gauges
          "s1/b" = some { ts := 100, val := 2 }) := by
  refine ⟨⟨by decide, ?_, ?_⟩, ⟨rfl, ?_, ?_⟩⟩
  · exact (((hub_filtered_broadcast clientFilterA snapshotTwoGauges 7
      { service := "s1", name := "a" } "s1/b").2 (by decide)).1
      (by decide) (by decide)).1.trans (by decide)
  · exact (((hub_filtered_broadcast clientFilterA snapshotTwoGauges 7
      { service := "s1", name := "a" } "s1/b").2 (by decide)).2
      (by decide)).1
  · exact (((hub_filtered_broadcast clientNoFilter snapshotTwoGauges 7
      { service := "s1", name := "a" } "s1/b").1 rfl).1
      (by decide) (by decide)).trans (by decide)
  · exact (((hub_filtered_broadcast clientNoFilter snapshotTwoGauges 7
      { service := "s1", name := "b" } "s1/a").1 rfl).1
      (by decide) (by decide)).trans (by decide)

end Aggregator
